import Mathlib

/-!
# Verification of the AmpyFin backtesting core

Shallow embedding of the simulation and scoring core of the repository:
`backtesting/backtester.py` (class `Backtester`: `calculate_points`,
`execute_buy`, `execute_sell`, `run`), `backtesting/scoring.py`
(class `StrategyScorer`), `backtesting/backtest.py` and
`backtesting/test_strategies.py` (`process_symbol`, `main`).

Python floats are modelled as rationals (ℚ); all literals appearing in the
source (1.05, 1.1, 0.975, 0.95, 0.01, 0.1) are exactly representable in the
comparisons the code performs, so the branch structure is preserved.
Python's `int()` truncates toward zero, modelled by `pyInt`.  A Python
statement that can raise (division by zero in `execute_buy`, the
`ValueError` of `prepare_data`) is modelled in the `Except String` monad.
Timestamps are abstracted as naturals; the strategy function is an abstract
function from the day's daily-data slice (an arbitrary type `D`) to a
`Signal`, applied exactly once per calendar-day group as in
`Backtester.run`.
-/

namespace AmpyFin

/-- Python `int(q)`: truncation toward zero. -/
def pyInt (q : ℚ) : ℤ := if 0 ≤ q then ⌊q⌋ else ⌈q⌉

/-- The three strategy signals `'Buy' | 'Sell' | 'Hold'`. -/
inductive Signal
  | Buy
  | Sell
  | Hold
deriving DecidableEq, Repr

/-- Constructor arguments of `Backtester.__init__`
(`initial_capital=50000, min_cash_buffer=15000, max_position_pct=0.1`). -/
structure Config where
  initial_capital : ℚ
  min_cash_buffer : ℚ
  max_position_pct : ℚ
deriving DecidableEq, Repr

/-- The default configuration of `Backtester.__init__`. -/
def defaultConfig : Config := ⟨50000, 15000, 1/10⟩

/-- The `self.current_position` dict created in `execute_buy`. -/
structure Position where
  entry_date : ℕ
  entry_price : ℚ
  shares : ℤ
  cost : ℚ
deriving DecidableEq, Repr

/-- The trade dict appended to `self.trades` in `execute_sell`. -/
structure Trade where
  entry_date : ℕ
  exit_date : ℕ
  entry_price : ℚ
  exit_price : ℚ
  shares : ℤ
  profit : ℚ
  points : ℚ
  ratio : ℚ
  time_delta : ℚ
deriving DecidableEq, Repr

/-- The mutable fields of `Backtester` set by `reset()`. -/
structure BState where
  capital : ℚ
  trades : List Trade
  current_position : Option Position
  time_delta : ℚ
  points_tally : ℚ
  successful_trades : ℕ
  failed_trades : ℕ
deriving DecidableEq, Repr

/-- `Backtester.reset()`. -/
def reset (cfg : Config) : BState :=
  { capital := cfg.initial_capital
    trades := []
    current_position := none
    time_delta := 1
    points_tally := 0
    successful_trades := 0
    failed_trades := 0 }

/-- `Backtester.calculate_points(price_change_ratio)` of `backtester.py`
(identical to `StrategyScorer.calculate_points` of `scoring.py`),
as a function of `self.time_delta` and the ratio. -/
def calculate_points (time_delta price_change_ratio : ℚ) : ℚ :=
  if price_change_ratio > 1 then
    if price_change_ratio < 105/100 then time_delta * 1
    else if price_change_ratio < 11/10 then time_delta * (3/2)
    else time_delta * 2
  else
    if price_change_ratio > 975/1000 then -time_delta * 1
    else if price_change_ratio > 95/100 then -time_delta * (3/2)
    else -time_delta * 2

/-- `StrategyScorer.calculate_strategy_score(portfolio_value, points_tally)`
of `scoring.py`, as a function also of `self.initial_capital`. -/
def calculate_strategy_score (initial_capital portfolio_value points_tally : ℚ) : ℚ :=
  points_tally/10 + portfolio_value/initial_capital * 2

/-- `Backtester.execute_buy(timestamp, price)`.  `int(max_position_value /
price)` raises `ZeroDivisionError` when `price == 0`, hence the `Except`.
The returned `Bool` is the Python return value. -/
def execute_buy (cfg : Config) (s : BState) (timestamp : ℕ) (price : ℚ) :
    Except String (Bool × BState) :=
  if price = 0 then .error "ZeroDivisionError: division by zero" else
  let max_position_value := s.capital * cfg.max_position_pct
  let shares := pyInt (max_position_value / price)
  let position_cost := (shares : ℚ) * price
  if cfg.min_cash_buffer ≤ s.capital - position_cost then
    .ok (true,
      { s with
        current_position := some
          { entry_date := timestamp
            entry_price := price
            shares := shares
            cost := position_cost }
        capital := s.capital - position_cost })
  else
    .ok (false, s)

/-- `Backtester.execute_sell(timestamp, price)`.  The returned `Bool` is the
Python return value (`False` when there is no open position). -/
def execute_sell (s : BState) (timestamp : ℕ) (price : ℚ) : Bool × BState :=
  match s.current_position with
  | none => (false, s)
  | some pos =>
    let position_value := (pos.shares : ℚ) * price
    let profit := position_value - pos.cost
    let price_change_ratio := price / pos.entry_price
    let points := calculate_points s.time_delta price_change_ratio
    let trade : Trade :=
      { entry_date := pos.entry_date
        exit_date := timestamp
        entry_price := pos.entry_price
        exit_price := price
        shares := pos.shares
        profit := profit
        points := points
        ratio := price_change_ratio
        time_delta := s.time_delta }
    (true,
      { s with
        points_tally := s.points_tally + points
        successful_trades :=
          if 0 < profit then s.successful_trades + 1 else s.successful_trades
        failed_trades :=
          if 0 < profit then s.failed_trades else s.failed_trades + 1
        trades := s.trades ++ [trade]
        capital := s.capital + position_value
        current_position := none })

/-- A minute bar as consumed by the inner loop of `Backtester.run`:
its timestamp and its `Close` price. -/
abbrev Bar := ℕ × ℚ

/-- The body of the inner (per-bar) loop of `Backtester.run`:
`Buy` only when flat, `Sell` only when in a position, otherwise no-op. -/
def process_bar (cfg : Config) (signal : Signal) (s : BState) (bar : Bar) :
    Except String BState :=
  match signal, s.current_position with
  | .Buy, none => (execute_buy cfg s bar.1 bar.2).map (·.2)
  | .Sell, some _ => pure (execute_sell s bar.1 bar.2).2
  | _, _ => pure s

/-- The inner loop of `Backtester.run` over one day's minute bars, with the
signal held constant. -/
def process_bars (cfg : Config) (signal : Signal) :
    List Bar → BState → Except String BState
  | [], s => .ok s
  | bar :: rest, s => do
      let s' ← process_bar cfg signal s bar
      process_bars cfg signal rest s'

/-- One iteration of the outer (per-day) loop of `Backtester.run`: the
signal is computed once for the whole day, applied to every minute bar of
the day, and `self.time_delta += 0.01` runs at the end of the day. -/
def process_day (cfg : Config) (signal : Signal) (bars : List Bar)
    (s : BState) : Except String BState := do
  let s' ← process_bars cfg signal bars s
  pure { s' with time_delta := s'.time_delta + 1/100 }

/-- The outer loop of `Backtester.run` over the calendar-day groups of the
minute data.  `D` abstracts the daily-data slice `daily_backtest[...]` for
the day; `strategy_func` is applied to it exactly once per day. -/
def run_days {D : Type} (cfg : Config) (strategy_func : D → Signal) :
    List (D × List Bar) → BState → Except String BState
  | [], s => .ok s
  | (d, bars) :: rest, s => do
      let s' ← process_day cfg (strategy_func d) bars s
      run_days cfg strategy_func rest s'

/-- `Backtester.run` restricted to its simulation loop: reset, then the
day loop (data loading / preparation and printing are outside the model). -/
def run {D : Type} (cfg : Config) (strategy_func : D → Signal)
    (days : List (D × List Bar)) : Except String BState :=
  run_days cfg strategy_func days (reset cfg)

/-- The end-of-run step of `Backtester.run`: when the run ends with a
position still open, score it at the last available price and fold the
unrealized points into the tally, without closing the position. -/
def finalize (s : BState) (last_price : ℚ) : BState :=
  match s.current_position with
  | none => s
  | some pos =>
      let price_change_ratio := last_price / pos.entry_price
      let unrealized_points := calculate_points s.time_delta price_change_ratio
      { s with points_tally := s.points_tally + unrealized_points }

/-- Python's `pat in name` substring test on strings, on `List Char`. -/
def contains_substr (name pat : List Char) : Bool := decide (pat <:+: name)

/-- The strategy-name dispatch of `Backtester.prepare_data` that picks
`required_days` from `strategy_func.__name__`. -/
def required_days (name : List Char) : ℕ :=
  if contains_substr name "MACD".data then 35
  else if contains_substr name "RSI".data then 14
  else if contains_substr name "EMA".data then 30
  else if contains_substr name "BBANDS".data then 20
  else 35

/-- The lookback check of `Backtester.prepare_data`: given the length of
the already-filtered daily series `daily_backtest`, raise
`ValueError("Insufficient data ...")` when it is shorter than the
strategy's required lookback. -/
def prepare_data (name : List Char) (daily_len : ℕ) : Except String Unit :=
  if daily_len < required_days name then
    .error ("Insufficient data (needs " ++ toString (required_days name) ++ " days)")
  else
    .ok ()

/-- `Backtester.run` with its `prepare_data` call: the lookback check runs
before the simulation loop, so its error aborts the run with no bar
simulated. -/
def run_with_prepare {D : Type} (cfg : Config) (name : List Char)
    (daily_len : ℕ) (strategy_func : D → Signal)
    (days : List (D × List Bar)) : Except String BState := do
  let _ ← prepare_data name daily_len
  run cfg strategy_func days

/-- The fields of the per-symbol result record of
`test_strategies.process_symbol` that the batch aggregation in
`test_strategies.main` reads. -/
structure SymbolResult where
  points : ℚ
  trades : ℕ
  successful_trades : ℕ
  failed_trades : ℕ
  total_return : ℚ
deriving DecidableEq, Repr

/-- `test_strategies.process_symbol`: the whole per-symbol run is wrapped
in `try/except`; an exception makes the symbol's contribution `None`. -/
def process_symbol (outcome : Except String SymbolResult) :
    Option SymbolResult :=
  match outcome with
  | .ok r => some r
  | .error _ => none

/-- The aggregate record written by `test_strategies.main` into
`strategy_scores.json`. -/
structure Aggregate where
  total_points : ℚ
  average_points : ℚ
  win_rate : ℚ
  total_trades : ℕ
  average_return : ℚ
deriving DecidableEq, Repr

/-- The overall-metrics block of `test_strategies.main`, over the list of
valid per-symbol results (`None` when there are no valid results). -/
def aggregate_of (results : List SymbolResult) : Option Aggregate :=
  if results.isEmpty then none else
  let total_points := (results.map (·.points)).sum
  let total_trades := (results.map (·.trades)).sum
  let total_success := (results.map (·.successful_trades)).sum
  let avg_return := (results.map (·.total_return)).sum / (results.length : ℚ)
  let avg_points := total_points / (results.length : ℚ)
  let win_rate :=
    if 0 < total_trades then (total_success : ℚ) / (total_trades : ℚ) * 100 else 0
  some
    { total_points := total_points
      average_points := avg_points
      win_rate := win_rate
      total_trades := total_trades
      average_return := avg_return }

/-- The batch aggregation of `test_strategies.main` applied to the raw
worker outputs: `results = [r for r in pool.map(...) if r is not None]`,
then the overall metrics over `results`. -/
def aggregate (outcomes : List (Option SymbolResult)) : Option Aggregate :=
  aggregate_of (outcomes.filterMap id)

/-- The scoring schedule as the spec's table reads after replacing its
interval endpoints by the ones the code actually implements:
`[1.10, ∞) ↦ 2t`, `[1.05, 1.10) ↦ 1.5t`, `(1.00, 1.05) ↦ t`,
`(0.975, 1.00] ↦ −t`, `(0.95, 0.975] ↦ −1.5t`, `(−∞, 0.95] ↦ −2t`. -/
def points_schedule_amended (t r : ℚ) : ℚ :=
  if 11/10 ≤ r then t * 2
  else if 105/100 ≤ r then t * (3/2)
  else if 1 < r then t
  else if 975/1000 < r then -t
  else if 95/100 < r then -t * (3/2)
  else -t * 2

/-- The capital invariant of the run: cash is non-negative and an open
position holds a non-negative number of shares. -/
def CapitalInv (s : BState) : Prop :=
  0 ≤ s.capital ∧ ∀ p, s.current_position = some p → 0 ≤ p.shares

/-! ## Helper lemmas -/

lemma pyInt_nonneg {q : ℚ} (h : 0 ≤ q) : 0 ≤ pyInt q := by
  simp only [pyInt, if_pos h]
  exact Int.floor_nonneg.mpr h

lemma execute_buy_ok_true {cfg : Config} {s : BState} {ts : ℕ} {price : ℚ}
    {s' : BState} (h : execute_buy cfg s ts price = .ok (true, s')) :
    s' = { s with
      current_position := some
        { entry_date := ts, entry_price := price,
          shares := pyInt (s.capital * cfg.max_position_pct / price),
          cost := (pyInt (s.capital * cfg.max_position_pct / price) : ℚ) * price }
      capital :=
        s.capital - (pyInt (s.capital * cfg.max_position_pct / price) : ℚ) * price } ∧
    cfg.min_cash_buffer ≤
      s.capital - (pyInt (s.capital * cfg.max_position_pct / price) : ℚ) * price := by
  unfold execute_buy at h
  split at h
  · exact absurd h (by simp)
  · dsimp only at h
    split at h
    · rename_i hbuf
      simp only [Except.ok.injEq, Prod.mk.injEq, true_and] at h
      exact ⟨h.symm, hbuf⟩
    · simp at h

lemma execute_buy_ok_false {cfg : Config} {s : BState} {ts : ℕ} {price : ℚ}
    {s' : BState} (h : execute_buy cfg s ts price = .ok (false, s')) :
    s' = s := by
  unfold execute_buy at h
  split at h
  · exact absurd h (by simp)
  · dsimp only at h
    split at h
    · simp at h
    · simp only [Except.ok.injEq, Prod.mk.injEq, true_and] at h
      exact h.symm

lemma execute_sell_some {s : BState} {ts : ℕ} {price : ℚ} {pos : Position}
    (h : s.current_position = some pos) :
    execute_sell s ts price =
      (true,
        { s with
          points_tally := s.points_tally +
            calculate_points s.time_delta (price / pos.entry_price)
          successful_trades :=
            if 0 < (pos.shares : ℚ) * price - pos.cost then s.successful_trades + 1
            else s.successful_trades
          failed_trades :=
            if 0 < (pos.shares : ℚ) * price - pos.cost then s.failed_trades
            else s.failed_trades + 1
          trades := s.trades ++
            [{ entry_date := pos.entry_date, exit_date := ts,
               entry_price := pos.entry_price, exit_price := price,
               shares := pos.shares,
               profit := (pos.shares : ℚ) * price - pos.cost,
               points := calculate_points s.time_delta (price / pos.entry_price),
               ratio := price / pos.entry_price, time_delta := s.time_delta }]
          capital := s.capital + (pos.shares : ℚ) * price
          current_position := none }) := by
  unfold execute_sell
  rw [h]

lemma process_bar_ok_cases {cfg : Config} {sig : Signal} {s : BState}
    {bar : Bar} {s' : BState} (h : process_bar cfg sig s bar = .ok s') :
    s'.time_delta = s.time_delta ∧
    (s' = s ∨
      (sig = .Buy ∧ s.current_position = none ∧ s'.trades = s.trades ∧
        (∃ p, s'.current_position = some p) ∧ cfg.min_cash_buffer ≤ s'.capital) ∨
      (sig = .Sell ∧ ∃ p t, s.current_position = some p ∧
        s'.current_position = none ∧ s'.trades = s.trades ++ [t] ∧
        t.shares = p.shares ∧
        s'.capital = s.capital + (p.shares : ℚ) * bar.2)) := by
  cases sig with
  | Buy =>
    cases hcp : s.current_position with
    | none =>
      simp only [process_bar, hcp] at h
      cases hb : execute_buy cfg s bar.1 bar.2 with
      | error e => rw [hb] at h; simp [Except.map] at h
      | ok v =>
        obtain ⟨b, s2⟩ := v
        rw [hb] at h
        simp only [Except.map, Except.ok.injEq] at h
        subst h
        cases b with
        | false =>
          have hs := execute_buy_ok_false hb
          subst hs
          exact ⟨rfl, Or.inl rfl⟩
        | true =>
          obtain ⟨hs, hbuf⟩ := execute_buy_ok_true hb
          subst hs
          refine ⟨rfl, Or.inr (Or.inl ⟨rfl, rfl, rfl, ⟨_, rfl⟩, hbuf⟩)⟩
    | some pos =>
      simp only [process_bar, hcp, pure, Except.pure, Except.ok.injEq] at h
      subst h
      exact ⟨rfl, Or.inl rfl⟩
  | Sell =>
    cases hcp : s.current_position with
    | none =>
      simp only [process_bar, hcp, pure, Except.pure, Except.ok.injEq] at h
      subst h
      exact ⟨rfl, Or.inl rfl⟩
    | some pos =>
      simp only [process_bar, hcp, pure, Except.pure, Except.ok.injEq] at h
      rw [execute_sell_some hcp] at h
      subst h
      refine ⟨rfl, Or.inr (Or.inr ⟨rfl, pos, _, rfl, rfl, rfl, rfl, rfl⟩)⟩
  | Hold =>
    cases hcp : s.current_position with
    | none =>
      simp only [process_bar, hcp, pure, Except.pure, Except.ok.injEq] at h
      subst h
      exact ⟨rfl, Or.inl rfl⟩
    | some pos =>
      simp only [process_bar, hcp, pure, Except.pure, Except.ok.injEq] at h
      subst h
      exact ⟨rfl, Or.inl rfl⟩

lemma process_bars_ok_cases {cfg : Config} {sig : Signal} {bars : List Bar}
    {s s' : BState} (h : process_bars cfg sig bars s = .ok s') :
    s'.time_delta = s.time_delta ∧
    ((s'.trades = s.trades ∧ s'.current_position = s.current_position) ∨
      (sig = .Buy ∧ s.current_position = none ∧ s'.trades = s.trades ∧
        ∃ p, s'.current_position = some p) ∨
      (sig = .Sell ∧ ∃ p t, s.current_position = some p ∧
        s'.current_position = none ∧ s'.trades = s.trades ++ [t] ∧
        t.shares = p.shares)) := by
  induction bars generalizing s with
  | nil =>
    simp only [process_bars, Except.ok.injEq] at h
    subst h
    exact ⟨rfl, Or.inl ⟨rfl, rfl⟩⟩
  | cons bar rest ih =>
    simp only [process_bars] at h
    cases h1 : process_bar cfg sig s bar with
    | error e => rw [h1] at h; simp [bind, Except.bind] at h
    | ok s1 =>
      rw [h1] at h
      simp only [bind, Except.bind] at h
      obtain ⟨td1, hc1⟩ := process_bar_ok_cases h1
      obtain ⟨td2, hc2⟩ := ih h
      refine ⟨td2.trans td1, ?_⟩
      rcases hc1 with rfl | ⟨hsig, hnone, htr1, ⟨p1, hp1⟩, -⟩ |
        ⟨hsig, p, t, hp, hnone1, htr1, hts, -⟩
      · exact hc2
      · rcases hc2 with ⟨htr2, hcp2⟩ | ⟨-, hnone2, -, -⟩ | ⟨hsell, -⟩
        · exact Or.inr (Or.inl ⟨hsig, hnone, htr2.trans htr1,
            ⟨p1, hcp2.trans hp1⟩⟩)
        · rw [hp1] at hnone2; cases hnone2
        · rw [hsig] at hsell; cases hsell
      · rcases hc2 with ⟨htr2, hcp2⟩ | ⟨hbuy, -, -, -⟩ | ⟨-, p2, t2, hp2, -, -, -⟩
        · exact Or.inr (Or.inr ⟨hsig, p, t, hp, hcp2.trans hnone1,
            htr2.trans htr1, hts⟩)
        · rw [hsig] at hbuy; cases hbuy
        · rw [hnone1] at hp2; cases hp2

lemma process_day_exists {cfg : Config} {sig : Signal} {bars : List Bar}
    {s s' : BState} (h : process_day cfg sig bars s = .ok s') :
    ∃ s1, process_bars cfg sig bars s = .ok s1 ∧
      s' = { s1 with time_delta := s1.time_delta + 1/100 } := by
  simp only [process_day] at h
  cases h1 : process_bars cfg sig bars s with
  | error e => rw [h1] at h; simp [bind, Except.bind] at h
  | ok s1 =>
    rw [h1] at h
    simp only [bind, Except.bind, pure, Except.pure, Except.ok.injEq] at h
    exact ⟨s1, rfl, h.symm⟩

lemma process_day_ok_cases {cfg : Config} {sig : Signal} {bars : List Bar}
    {s s' : BState} (h : process_day cfg sig bars s = .ok s') :
    s'.time_delta = s.time_delta + 1/100 ∧
    ((s'.trades = s.trades ∧ s'.current_position = s.current_position) ∨
      (sig = .Buy ∧ s.current_position = none ∧ s'.trades = s.trades ∧
        ∃ p, s'.current_position = some p) ∨
      (sig = .Sell ∧ ∃ p t, s.current_position = some p ∧
        s'.current_position = none ∧ s'.trades = s.trades ++ [t] ∧
        t.shares = p.shares)) := by
  obtain ⟨s1, h1, rfl⟩ := process_day_exists h
  obtain ⟨td, hc⟩ := process_bars_ok_cases h1
  exact ⟨by simp [td], hc⟩

lemma run_days_time_delta {D : Type} {cfg : Config} {f : D → Signal}
    {days : List (D × List Bar)} {s s' : BState}
    (h : run_days cfg f days s = .ok s') :
    s'.time_delta = s.time_delta + (days.length : ℚ) * (1/100) := by
  induction days generalizing s with
  | nil =>
    simp only [run_days, Except.ok.injEq] at h
    subst h; simp
  | cons day rest ih =>
    obtain ⟨d, bars⟩ := day
    simp only [run_days] at h
    cases h1 : process_day cfg (f d) bars s with
    | error e => rw [h1] at h; simp [bind, Except.bind] at h
    | ok s1 =>
      rw [h1] at h
      simp only [bind, Except.bind] at h
      have htd1 := (process_day_ok_cases h1).1
      have := ih h
      rw [this, htd1]
      simp only [List.length_cons]
      push_cast
      ring

lemma process_bar_inv {cfg : Config} {sig : Signal} {s : BState} {bar : Bar}
    {s' : BState} (hb : 0 ≤ cfg.min_cash_buffer)
    (hpct : 0 ≤ cfg.max_position_pct) (hpr : 0 < bar.2)
    (hinv : CapitalInv s) (h : process_bar cfg sig s bar = .ok s') :
    CapitalInv s' := by
  cases sig with
  | Buy =>
    cases hcp : s.current_position with
    | none =>
      simp only [process_bar, hcp] at h
      cases hb1 : execute_buy cfg s bar.1 bar.2 with
      | error e => rw [hb1] at h; simp [Except.map] at h
      | ok v =>
        obtain ⟨b, s2⟩ := v
        rw [hb1] at h
        simp only [Except.map, Except.ok.injEq] at h
        subst h
        cases b with
        | false => rw [execute_buy_ok_false hb1]; exact hinv
        | true =>
          obtain ⟨hs, hbuf⟩ := execute_buy_ok_true hb1
          subst hs
          refine ⟨le_trans hb hbuf, ?_⟩
          intro p hp
          simp only [Option.some.injEq] at hp
          subst hp
          exact pyInt_nonneg (div_nonneg (mul_nonneg hinv.1 hpct) hpr.le)
    | some pos =>
      simp only [process_bar, hcp, pure, Except.pure, Except.ok.injEq] at h
      subst h; exact hinv
  | Sell =>
    cases hcp : s.current_position with
    | none =>
      simp only [process_bar, hcp, pure, Except.pure, Except.ok.injEq] at h
      subst h; exact hinv
    | some pos =>
      simp only [process_bar, hcp, pure, Except.pure, Except.ok.injEq] at h
      rw [execute_sell_some hcp] at h
      subst h
      constructor
      · have hsh : (0 : ℚ) ≤ (pos.shares : ℚ) :=
          Int.cast_nonneg.mpr (hinv.2 pos hcp)
        have : (0 : ℚ) ≤ (pos.shares : ℚ) * bar.2 :=
          mul_nonneg hsh hpr.le
        calc (0 : ℚ) ≤ s.capital := hinv.1
          _ ≤ s.capital + (pos.shares : ℚ) * bar.2 := by linarith
      · intro p hp; cases hp
  | Hold =>
    cases hcp : s.current_position with
    | none =>
      simp only [process_bar, hcp, pure, Except.pure, Except.ok.injEq] at h
      subst h; exact hinv
    | some pos =>
      simp only [process_bar, hcp, pure, Except.pure, Except.ok.injEq] at h
      subst h; exact hinv

lemma process_bars_inv {cfg : Config} {sig : Signal} {bars : List Bar}
    {s s' : BState} (hb : 0 ≤ cfg.min_cash_buffer)
    (hpct : 0 ≤ cfg.max_position_pct) (hpr : ∀ b ∈ bars, 0 < b.2)
    (hinv : CapitalInv s) (h : process_bars cfg sig bars s = .ok s') :
    CapitalInv s' := by
  induction bars generalizing s with
  | nil =>
    simp only [process_bars, Except.ok.injEq] at h
    subst h; exact hinv
  | cons bar rest ih =>
    simp only [process_bars] at h
    cases h1 : process_bar cfg sig s bar with
    | error e => rw [h1] at h; simp [bind, Except.bind] at h
    | ok s1 =>
      rw [h1] at h
      simp only [bind, Except.bind] at h
      have hinv1 := process_bar_inv hb hpct (hpr bar (by simp)) hinv h1
      exact ih (fun b hbmem => hpr b (by simp [hbmem])) hinv1 h

lemma run_days_inv {D : Type} {cfg : Config} {f : D → Signal}
    {days : List (D × List Bar)} {s s' : BState}
    (hb : 0 ≤ cfg.min_cash_buffer) (hpct : 0 ≤ cfg.max_position_pct)
    (hpr : ∀ d ∈ days, ∀ b ∈ d.2, 0 < b.2)
    (hinv : CapitalInv s) (h : run_days cfg f days s = .ok s') :
    CapitalInv s' := by
  induction days generalizing s with
  | nil =>
    simp only [run_days, Except.ok.injEq] at h
    subst h; exact hinv
  | cons day rest ih =>
    obtain ⟨d, bars⟩ := day
    simp only [run_days] at h
    cases h1 : process_day cfg (f d) bars s with
    | error e => rw [h1] at h; simp [bind, Except.bind] at h
    | ok s1 =>
      rw [h1] at h
      simp only [bind, Except.bind] at h
      obtain ⟨s2, h2, rfl⟩ := process_day_exists h1
      have hinv2 : CapitalInv s2 :=
        process_bars_inv hb hpct (hpr (d, bars) (by simp)) hinv h2
      have hinv1 : CapitalInv { s2 with time_delta := s2.time_delta + 1/100 } :=
        ⟨hinv2.1, hinv2.2⟩
      exact ih (fun d' hd' => hpr d' (by simp [hd'])) hinv1 h

/-! ## Claim theorems -/

/-- C1 (counterexample): the claimed boundary values are wrong.  The code's
comparisons are strict (`ratio < 1.05`, `ratio < 1.1`), so at ratio exactly
1.05 the points are `1.5 × time_delta` (the claim says `1.0 × time_delta`)
and at ratio exactly 1.10 they are `2 × time_delta` (the claim says
`1.5 × time_delta`); shown here at `time_delta = 1`. -/
theorem calculate_points_boundary_cex :
    calculate_points 1 (105/100) = 3/2 ∧ (3/2 : ℚ) ≠ 1 * 1 ∧
    calculate_points 1 (11/10) = 2 ∧ (2 : ℚ) ≠ 1 * (3/2) := by
  refine ⟨by norm_num [calculate_points], by norm_num,
    by norm_num [calculate_points], by norm_num⟩

/-- C1 (amended): `calculate_points` is `time_delta` times the fixed
schedule `+2.0` if `r ≥ 1.10`; `+1.5` if `1.05 ≤ r < 1.10`; `+1.0` if
`1.00 < r < 1.05`; `−1.0` if `0.975 < r ≤ 1.00`; `−1.5` if
`0.95 < r ≤ 0.975`; `−2.0` if `r ≤ 0.95`; in particular
`points(1.05, t) = t × 1.5` and `points(1.10, t) = t × 2.0`, and the
claimed concrete values `points(1.03, 1) = 1`, `points(1.07, 1) = 1.5`,
`points(1.15, 1) = 2`, `points(0.98, 1) = −1`, `points(0.96, 1) = −1.5`,
`points(0.93, 1) = −2` hold. -/
theorem calculate_points_schedule :
    (∀ t r : ℚ, calculate_points t r = points_schedule_amended t r) ∧
    calculate_points 1 (103/100) = 1 ∧
    calculate_points 1 (107/100) = 3/2 ∧
    calculate_points 1 (115/100) = 2 ∧
    calculate_points 1 (98/100) = -1 ∧
    calculate_points 1 (96/100) = -(3/2) ∧
    calculate_points 1 (93/100) = -2 ∧
    (∀ t : ℚ, calculate_points t (105/100) = t * (3/2)) ∧
    (∀ t : ℚ, calculate_points t (11/10) = t * 2) := by
  refine ⟨?_, by norm_num [calculate_points], by norm_num [calculate_points],
    by norm_num [calculate_points], by norm_num [calculate_points],
    by norm_num [calculate_points], by norm_num [calculate_points],
    fun t => by norm_num [calculate_points], fun t => by norm_num [calculate_points]⟩
  intro t r
  unfold calculate_points points_schedule_amended
  split_ifs <;> linarith

/-- C4: the strategy score combinator returns exactly
`points_tally/10 + (portfolio_value/initial_capital) × 2` whenever the
initial capital is positive, and the concrete instance
`score(55000, 10, capital 50000) = 3.2 = 16/5` holds. -/
theorem calculate_strategy_score_spec :
    (∀ c v p : ℚ, 0 < c →
      calculate_strategy_score c v p = p/10 + (v/c) * 2) ∧
    calculate_strategy_score 50000 55000 10 = 16/5 := by
  exact ⟨fun c v p _ => rfl, by norm_num [calculate_strategy_score]⟩

/-- Witness for C4 at `points_tally = 10`, `portfolio_value = 55000`,
`initial_capital = 50000`: the hypothesis `0 < 50000` holds and the score
is `10/10 + (55000/50000) × 2 = 3.2`. -/
theorem calculate_strategy_score_spec_witness :
    calculate_strategy_score 50000 55000 10 = 10/10 + (55000/50000) * 2 ∧
    (10/10 + (55000/50000 : ℚ) * 2) = 16/5 :=
  ⟨calculate_strategy_score_spec.1 50000 55000 10 (by norm_num), by norm_num⟩

/-- C2 (counterexample): in `Backtester.run` the `time_delta` increment
happens at the END of each day (`# Increment time_delta at end of day`),
not before the day's bars.  In a two-day run (day 1 `Buy` at 100, day 2
`Sell` at 110) the day-2 trade is recorded with `time_delta = 1.01`; if the
increment happened before each observed day's bars as claimed, that trade
would carry `time_delta = 1 + 2 × 0.01 = 1.02`. -/
theorem run_time_delta_cex :
    (run defaultConfig id [(Signal.Buy, [(0, 100)]), (Signal.Sell, [(1, 110)])]).map
      (fun s => s.trades.map (·.time_delta)) = .ok [101/100] ∧
    (101/100 : ℚ) ≠ 1 + 2 * (1/100) := by
  constructor
  · norm_num [run, run_days, process_day, process_bars, process_bar, execute_buy,
      execute_sell, calculate_points, pyInt, reset, defaultConfig, Except.map,
      bind, Except.bind, pure, Except.pure]
  · norm_num

/-- C2 (amended): `time_delta` starts at 1.0 and is incremented by exactly
+0.01 exactly once per processed calendar day, the increment happening
AFTER that day's bars are processed (at the end of the day's group);
`time_delta` is therefore the same for all bars within one calendar day,
is non-decreasing over the run, changes only at day boundaries, and after
`n` days equals `1 + n × 0.01`. -/
theorem time_delta_step :
    (∀ (cfg : Config) (sig : Signal) (s : BState) (bar : Bar) (s' : BState),
      process_bar cfg sig s bar = .ok s' → s'.time_delta = s.time_delta) ∧
    (∀ (cfg : Config) (sig : Signal) (bars : List Bar) (s s' : BState),
      process_bars cfg sig bars s = .ok s' → s'.time_delta = s.time_delta) ∧
    (∀ (cfg : Config) (sig : Signal) (bars : List Bar) (s s' : BState),
      process_day cfg sig bars s = .ok s' →
        s'.time_delta = s.time_delta + 1/100) ∧
    (∀ (D : Type) (cfg : Config) (f : D → Signal)
      (days : List (D × List Bar)) (s' : BState),
      run cfg f days = .ok s' →
        s'.time_delta = 1 + (days.length : ℚ) * (1/100)) := by
  refine ⟨fun cfg sig s bar s' h => (process_bar_ok_cases h).1,
    fun cfg sig bars s s' h => (process_bars_ok_cases h).1,
    fun cfg sig bars s s' h => (process_day_ok_cases h).1,
    fun D cfg f days s' h => ?_⟩
  have := run_days_time_delta h
  simpa [reset] using this

/-- Witness for C2 (amended): concrete instances of each conjunct — a
`Hold` bar, a successful `Buy` bar list, a one-bar `Hold` day, and the
empty run. -/
theorem time_delta_step_witness :
    ((reset defaultConfig).time_delta = (reset defaultConfig).time_delta) ∧
    (({ reset defaultConfig with
        current_position := some ⟨0, 100, 50, 5000⟩,
        capital := 45000 } : BState).time_delta =
      (reset defaultConfig).time_delta) ∧
    (({ reset defaultConfig with time_delta := 1 + 1/100 } : BState).time_delta =
      (reset defaultConfig).time_delta + 1/100) ∧
    ((reset defaultConfig).time_delta =
      1 + (([] : List (Signal × List Bar)).length : ℚ) * (1/100)) := by
  refine ⟨time_delta_step.1 defaultConfig .Hold (reset defaultConfig) (0, 100)
      (reset defaultConfig) rfl,
    time_delta_step.2.1 defaultConfig .Buy [(0, 100)] (reset defaultConfig) _ ?_,
    time_delta_step.2.2.1 defaultConfig .Hold [(0, 100)] (reset defaultConfig) _ ?_,
    time_delta_step.2.2.2 (Signal × List Bar) defaultConfig Prod.fst [] _ rfl⟩
  · norm_num [process_bars, process_bar, execute_buy, pyInt, reset,
      defaultConfig, Except.map, bind, Except.bind, pure, Except.pure]
  · norm_num [process_day, process_bars, process_bar, reset, defaultConfig,
      bind, Except.bind, pure, Except.pure]

/-- C3 (counterexample): a Buy attempt whose computed share count is 0 is
NOT refused.  With default config (capital 50000, buffer 15000, fraction
0.1) at price 6000 the computed share count `int(5000/6000)` is 0, the
buffer check `50000 − 0 ≥ 15000` passes, and `execute_buy` returns `True`
after creating a zero-share position with cost 0 (capital unchanged),
contradicting "no Position is created". -/
theorem execute_buy_zero_shares_cex :
    pyInt ((reset defaultConfig).capital * defaultConfig.max_position_pct / 6000) = 0 ∧
    execute_buy defaultConfig (reset defaultConfig) 0 6000 =
      .ok (true, { reset defaultConfig with
        current_position := some ⟨0, 6000, 0, 0⟩, capital := 50000 }) := by
  constructor
  · norm_num [pyInt, reset, defaultConfig]
  · norm_num [execute_buy, pyInt, reset, defaultConfig]

/-- C3 (amended): for nonzero price, `execute_buy` refuses (silent no-op,
no error, state unchanged) exactly when
`capital − shares×price < minCashBuffer` with
`shares = int(capital × maxPositionFraction / price)`; when the buffer
condition holds it opens a position with that share count — including a
zero-share position when the computed share count is 0. -/
theorem execute_buy_refusal_amended :
    ∀ (cfg : Config) (s : BState) (ts : ℕ) (price : ℚ), price ≠ 0 →
      (s.capital - (pyInt (s.capital * cfg.max_position_pct / price) : ℚ) * price <
          cfg.min_cash_buffer →
        execute_buy cfg s ts price = .ok (false, s)) ∧
      (cfg.min_cash_buffer ≤
          s.capital - (pyInt (s.capital * cfg.max_position_pct / price) : ℚ) * price →
        execute_buy cfg s ts price = .ok (true, { s with
          current_position := some
            { entry_date := ts, entry_price := price,
              shares := pyInt (s.capital * cfg.max_position_pct / price),
              cost := (pyInt (s.capital * cfg.max_position_pct / price) : ℚ) * price }
          capital := s.capital -
            (pyInt (s.capital * cfg.max_position_pct / price) : ℚ) * price })) := by
  intro cfg s ts price hprice
  unfold execute_buy
  rw [if_neg hprice]
  dsimp only
  constructor
  · intro hlt
    rw [if_neg (not_le.mpr hlt)]
  · intro hle
    rw [if_pos hle]

/-- Witness for C3 (amended): with capital 16000 at price 500 the computed
share count is 3, `16000 − 1500 = 14500 < 15000`, and the buy is refused
as a silent no-op. -/
theorem execute_buy_refusal_amended_witness :
    execute_buy defaultConfig { reset defaultConfig with capital := 16000 } 0 500 =
      .ok (false, { reset defaultConfig with capital := 16000 }) :=
  (execute_buy_refusal_amended defaultConfig
      { reset defaultConfig with capital := 16000 } 0 500 (by norm_num)).1
    (by norm_num [pyInt, reset, defaultConfig])

/-- C5: a successful `execute_buy` leaves `capital ≥ minCashBuffer`; the
per-bar step preserves the capital invariant (capital ≥ 0 and open
position shares ≥ 0) under non-negative buffer and fraction and positive
price; hence over a whole run with positive prices, capital never goes
negative. -/
theorem buy_respects_cash_buffer :
    (∀ (cfg : Config) (s : BState) (ts : ℕ) (price : ℚ) (s' : BState),
      execute_buy cfg s ts price = .ok (true, s') →
        cfg.min_cash_buffer ≤ s'.capital) ∧
    (∀ (cfg : Config) (sig : Signal) (s : BState) (bar : Bar) (s' : BState),
      0 ≤ cfg.min_cash_buffer → 0 ≤ cfg.max_position_pct → 0 < bar.2 →
      CapitalInv s → process_bar cfg sig s bar = .ok s' → CapitalInv s') ∧
    (∀ (D : Type) (cfg : Config) (f : D → Signal)
      (days : List (D × List Bar)) (s' : BState),
      0 ≤ cfg.min_cash_buffer → 0 ≤ cfg.max_position_pct →
      0 ≤ cfg.initial_capital →
      (∀ d ∈ days, ∀ b ∈ d.2, 0 < b.2) →
      run cfg f days = .ok s' → 0 ≤ s'.capital) := by
  refine ⟨fun cfg s ts price s' h => ?_,
    fun cfg sig s bar s' hb hpct hpr hinv h => process_bar_inv hb hpct hpr hinv h,
    fun D cfg f days s' hb hpct hc hpr h => ?_⟩
  · obtain ⟨hs, hbuf⟩ := execute_buy_ok_true h
    subst hs
    exact hbuf
  · have hinv0 : CapitalInv (reset cfg) :=
      ⟨hc, fun p hp => Option.noConfusion hp⟩
    exact (run_days_inv hb hpct hpr hinv0 h).1

/-- Witness for C5: the concrete buy of 50 shares at price 100 from the
default state leaves capital 45000 ≥ 15000; a `Hold` bar preserves the
invariant of the default state; the two-day Buy-then-Sell run at prices
100 and 110 ends with capital 50500 ≥ 0. -/
theorem buy_respects_cash_buffer_witness :
    defaultConfig.min_cash_buffer ≤
      ({ reset defaultConfig with
        current_position := some ⟨0, 100, 50, 5000⟩,
        capital := 45000 } : BState).capital ∧
    CapitalInv (reset defaultConfig) ∧
    (0 : ℚ) ≤ (BState.mk 50500 [⟨0, 1, 100, 110, 50, 500, 101/50, 11/10, 101/100⟩]
      none (51/50) (101/50) 1 0).capital := by
  refine ⟨buy_respects_cash_buffer.1 defaultConfig (reset defaultConfig) 0 100 _ ?_,
    buy_respects_cash_buffer.2.1 defaultConfig .Hold (reset defaultConfig) (0, 100)
      (reset defaultConfig) (by norm_num [defaultConfig]) (by norm_num [defaultConfig])
      (by norm_num) ⟨by norm_num [reset, defaultConfig], fun p hp => Option.noConfusion hp⟩
      rfl,
    buy_respects_cash_buffer.2.2 Signal defaultConfig id
      [(Signal.Buy, [(0, 100)]), (Signal.Sell, [(1, 110)])] _
      (by norm_num [defaultConfig]) (by norm_num [defaultConfig])
      (by norm_num [defaultConfig]) ?_ ?_⟩
  · norm_num [execute_buy, pyInt, reset, defaultConfig]
  · intro d hd b hb
    simp only [List.mem_cons, List.mem_singleton] at hd
    rcases hd with rfl | rfl | h
    · simp only [List.mem_singleton] at hb; subst hb; norm_num
    · simp only [List.mem_singleton] at hb; subst hb; norm_num
    · cases h
  · norm_num [run, run_days, process_day, process_bars, process_bar, execute_buy,
      execute_sell, calculate_points, pyInt, reset, defaultConfig, Except.map,
      bind, Except.bind, pure, Except.pure]

/-- C6: at most one Position is ever open (the state holds an
`Option Position`, and the loop guards make the other cases no-ops): a Buy
signal while a position is open and a Sell signal while flat leave the
state unchanged without error; `execute_sell` on an open position emits
exactly one Trade whose `shares` equals the closed Position's `shares`;
and over any bar sequence the trade list either is unchanged or grew by
one trade closing the position that was open. -/
theorem single_position_invariant :
    (∀ (cfg : Config) (s : BState) (bar : Bar) (p : Position),
      s.current_position = some p → process_bar cfg .Buy s bar = .ok s) ∧
    (∀ (cfg : Config) (s : BState) (bar : Bar),
      s.current_position = none → process_bar cfg .Sell s bar = .ok s) ∧
    (∀ (s : BState) (ts : ℕ) (price : ℚ) (p : Position),
      s.current_position = some p →
        (execute_sell s ts price).1 = true ∧
        (execute_sell s ts price).2.current_position = none ∧
        ∃ t, (execute_sell s ts price).2.trades = s.trades ++ [t] ∧
          t.shares = p.shares) ∧
    (∀ (cfg : Config) (sig : Signal) (bars : List Bar) (s s' : BState),
      process_bars cfg sig bars s = .ok s' →
        s'.trades = s.trades ∨
        ∃ p t, s.current_position = some p ∧
          s'.trades = s.trades ++ [t] ∧ t.shares = p.shares) := by
  refine ⟨fun cfg s bar p h => ?_, fun cfg s bar h => ?_,
    fun s ts price p h => ?_, fun cfg sig bars s s' h => ?_⟩
  · simp [process_bar, h, pure, Except.pure]
  · simp [process_bar, h, pure, Except.pure]
  · rw [execute_sell_some h]
    exact ⟨rfl, rfl, ⟨_, rfl, rfl⟩⟩
  · rcases (process_bars_ok_cases h).2 with ⟨htr, -⟩ | ⟨-, -, htr, -⟩ |
      ⟨-, p, t, hp, -, htr, hts⟩
    · exact Or.inl htr
    · exact Or.inl htr
    · exact Or.inr ⟨p, t, hp, htr, hts⟩

/-- Witness for C6: concrete instances — a Buy bar on a state holding a
position is a no-op, a Sell bar on a flat state is a no-op, selling the
concrete 50-share position emits one 50-share trade, and the empty bar
list leaves the trade list unchanged. -/
theorem single_position_invariant_witness :
    process_bar defaultConfig .Buy
      { reset defaultConfig with current_position := some ⟨0, 100, 50, 5000⟩ }
      (3, 120) =
      .ok { reset defaultConfig with current_position := some ⟨0, 100, 50, 5000⟩ } ∧
    process_bar defaultConfig .Sell (reset defaultConfig) (3, 120) =
      .ok (reset defaultConfig) ∧
    ((execute_sell
        { reset defaultConfig with current_position := some ⟨0, 100, 50, 5000⟩ }
        3 120).1 = true ∧
      (execute_sell
        { reset defaultConfig with current_position := some ⟨0, 100, 50, 5000⟩ }
        3 120).2.current_position = none ∧
      ∃ t, (execute_sell
        { reset defaultConfig with current_position := some ⟨0, 100, 50, 5000⟩ }
        3 120).2.trades =
          ({ reset defaultConfig with
            current_position := some ⟨0, 100, 50, 5000⟩ } : BState).trades ++ [t] ∧
        t.shares = (⟨0, 100, 50, 5000⟩ : Position).shares) ∧
    ((reset defaultConfig).trades = (reset defaultConfig).trades ∨
      ∃ p t, (reset defaultConfig).current_position = some p ∧
        (reset defaultConfig).trades = (reset defaultConfig).trades ++ [t] ∧
        t.shares = p.shares) :=
  ⟨single_position_invariant.1 defaultConfig _ (3, 120) ⟨0, 100, 50, 5000⟩ rfl,
    single_position_invariant.2.1 defaultConfig _ (3, 120) rfl,
    single_position_invariant.2.2.1 _ 3 120 ⟨0, 100, 50, 5000⟩ rfl,
    single_position_invariant.2.2.2 defaultConfig .Hold [] (reset defaultConfig)
      (reset defaultConfig) rfl⟩

/-- C7 (counterexample): non-positive price is NOT rejected.  A buy at
price −10 from the default state silently creates a position of −500
shares (cost 5000) and returns `True`; a sell at price 0 on an open
position is silently processed into a trade.  Only price exactly 0 at a
buy aborts (with a `ZeroDivisionError`), and that is not a descriptive
precondition error. -/
theorem execute_buy_negative_price_cex :
    execute_buy defaultConfig (reset defaultConfig) 0 (-10) =
      .ok (true, { reset defaultConfig with
        current_position := some ⟨0, -10, -500, 5000⟩, capital := 45000 }) ∧
    (execute_sell { reset defaultConfig with
        current_position := some ⟨0, 100, 50, 5000⟩ } 1 0).1 = true ∧
    (execute_sell { reset defaultConfig with
        current_position := some ⟨0, 100, 50, 5000⟩ } 1 0).2.trades.length = 1 := by
  refine ⟨?_, ?_, ?_⟩
  · norm_num [execute_buy, pyInt, reset, defaultConfig]
    rw [show ((-500 : ℚ)) = ((-500 : ℤ) : ℚ) by norm_num, Int.ceil_intCast]
    norm_num
  · rw [execute_sell_some rfl]
  · rw [execute_sell_some rfl]
    simp [reset]

/-- C7 (amended): the code performs no price-sign check.  A buy at price
exactly 0 aborts with a `ZeroDivisionError` (not a descriptive
precondition error); a buy at any nonzero price — including negative
prices — returns normally; a sell on an open position processes any
price, including non-positive ones, into a trade. -/
theorem nonpositive_price_amended :
    (∀ (cfg : Config) (s : BState) (ts : ℕ),
      execute_buy cfg s ts 0 = .error "ZeroDivisionError: division by zero") ∧
    (∀ (cfg : Config) (s : BState) (ts : ℕ) (price : ℚ), price ≠ 0 →
      ∃ r, execute_buy cfg s ts price = .ok r) ∧
    (∀ (s : BState) (ts : ℕ) (price : ℚ) (p : Position),
      s.current_position = some p → (execute_sell s ts price).1 = true) := by
  refine ⟨fun cfg s ts => by simp [execute_buy],
    fun cfg s ts price hprice => ?_,
    fun s ts price p h => by rw [execute_sell_some h]⟩
  unfold execute_buy
  rw [if_neg hprice]
  dsimp only
  split
  · exact ⟨_, rfl⟩
  · exact ⟨_, rfl⟩

/-- Witness for C7 (amended): instances at the default state — buy at
price 0 errors, buy at price −10 returns, sell at price 0 on the concrete
position returns `True`. -/
theorem nonpositive_price_amended_witness :
    execute_buy defaultConfig (reset defaultConfig) 0 0 =
      .error "ZeroDivisionError: division by zero" ∧
    (∃ r, execute_buy defaultConfig (reset defaultConfig) 0 (-10) = .ok r) ∧
    (execute_sell { reset defaultConfig with
        current_position := some ⟨0, 100, 50, 5000⟩ } 1 0).1 = true :=
  ⟨nonpositive_price_amended.1 defaultConfig (reset defaultConfig) 0,
    nonpositive_price_amended.2.1 defaultConfig (reset defaultConfig) 0 (-10)
      (by norm_num),
    nonpositive_price_amended.2.2 _ 1 0 ⟨0, 100, 50, 5000⟩ rfl⟩

/-- C8: when the prepared daily series has fewer bars than the strategy's
required lookback window, the run fails with the explicit "Insufficient
data" error before any bar is simulated (the error is returned whatever
the bar data is); the per-strategy windows are 35 for MACD, 14 for RSI,
30 for EMA, 20 for BBANDS and 35 otherwise (e.g. TRIMA). -/
theorem prepare_data_insufficient :
    (∀ (D : Type) (cfg : Config) (name : List Char) (daily_len : ℕ)
      (f : D → Signal) (days : List (D × List Bar)),
      daily_len < required_days name →
        run_with_prepare cfg name daily_len f days =
          .error ("Insufficient data (needs " ++
            toString (required_days name) ++ " days)")) ∧
    required_days "MACD_indicator".data = 35 ∧
    required_days "RSI_indicator".data = 14 ∧
    required_days "EMA_indicator".data = 30 ∧
    required_days "BBANDS_indicator".data = 20 ∧
    required_days "TRIMA_indicator".data = 35 := by
  refine ⟨fun D cfg name daily_len f days h => ?_,
    by decide, by decide, by decide, by decide, by decide⟩
  simp only [run_with_prepare, prepare_data, if_pos h]
  rfl

/-- Witness for C8: an `RSI` strategy given only 13 daily bars fails with
the explicit insufficient-data error no matter what minute data follows. -/
theorem prepare_data_insufficient_witness :
    run_with_prepare defaultConfig "RSI_indicator".data 13 id
      [(Signal.Buy, [(0, 100)])] =
      .error ("Insufficient data (needs " ++
        toString (required_days "RSI_indicator".data) ++ " days)") :=
  prepare_data_insufficient.1 Signal defaultConfig "RSI_indicator".data 13 id
    [(Signal.Buy, [(0, 100)])] (by decide)

/-- C9: a failed symbol is recorded as `None` by `process_symbol`, a
successful one passes through unchanged, and a failed symbol entry is
excluded from every aggregate statistic: the batch aggregate over any
outcome list containing the failed entry equals the aggregate with that
entry removed, the other entries untouched. -/
theorem failed_symbol_excluded :
    (∀ r, process_symbol (.ok r) = some r) ∧
    (∀ e, process_symbol (.error e) = none) ∧
    (∀ (xs ys : List (Option SymbolResult)) (e : String),
      aggregate (xs ++ process_symbol (.error e) :: ys) = aggregate (xs ++ ys)) := by
  refine ⟨fun r => rfl, fun e => rfl, fun xs ys e => ?_⟩
  unfold aggregate process_symbol
  congr 1
  simp [List.filterMap_append]

/-- C10: in the daily-signal loop the signal is computed once per day and
held constant (`process_day` takes a single `signal` for all bars), so
each day sees at most one position transition — either the state is
unchanged, or one position was opened (day started flat, trades
unchanged), or the position open at the start of the day was closed with
exactly one trade — and a day that starts flat emits no trade, so a
position opened on some day is never closed that same day. -/
theorem daily_signal_single_transition :
    ∀ (cfg : Config) (sig : Signal) (bars : List Bar) (s s' : BState),
      process_day cfg sig bars s = .ok s' →
        ((s'.trades = s.trades ∧ s'.current_position = s.current_position) ∨
          (s.current_position = none ∧ s'.trades = s.trades ∧
            ∃ p, s'.current_position = some p) ∨
          (∃ p t, s.current_position = some p ∧ s'.current_position = none ∧
            s'.trades = s.trades ++ [t] ∧ t.shares = p.shares)) ∧
        (s.current_position = none → s'.trades = s.trades) := by
  intro cfg sig bars s s' h
  rcases (process_day_ok_cases h).2 with ⟨htr, hcp⟩ | ⟨-, hnone, htr, hex⟩ |
    ⟨-, p, t, hp, hnone', htr, hts⟩
  · exact ⟨Or.inl ⟨htr, hcp⟩, fun _ => htr⟩
  · exact ⟨Or.inr (Or.inl ⟨hnone, htr, hex⟩), fun _ => htr⟩
  · refine ⟨Or.inr (Or.inr ⟨p, t, hp, hnone', htr, hts⟩), fun hnone => ?_⟩
    rw [hnone] at hp
    cases hp

/-- Witness for C10: the one-bar Buy day from the default state opens the
50-share position at price 100 with no trade emitted. -/
theorem daily_signal_single_transition_witness :
    ((({ reset defaultConfig with
        current_position := some ⟨0, 100, 50, 5000⟩, capital := 45000,
        time_delta := 1 + 1/100 } : BState).trades =
          (reset defaultConfig).trades ∧
      ({ reset defaultConfig with
        current_position := some ⟨0, 100, 50, 5000⟩, capital := 45000,
        time_delta := 1 + 1/100 } : BState).current_position =
          (reset defaultConfig).current_position) ∨
      ((reset defaultConfig).current_position = none ∧
        ({ reset defaultConfig with
          current_position := some ⟨0, 100, 50, 5000⟩, capital := 45000,
          time_delta := 1 + 1/100 } : BState).trades =
            (reset defaultConfig).trades ∧
        ∃ p, ({ reset defaultConfig with
          current_position := some ⟨0, 100, 50, 5000⟩, capital := 45000,
          time_delta := 1 + 1/100 } : BState).current_position = some p) ∨
      (∃ p t, (reset defaultConfig).current_position = some p ∧
        ({ reset defaultConfig with
          current_position := some ⟨0, 100, 50, 5000⟩, capital := 45000,
          time_delta := 1 + 1/100 } : BState).current_position = none ∧
        ({ reset defaultConfig with
          current_position := some ⟨0, 100, 50, 5000⟩, capital := 45000,
          time_delta := 1 + 1/100 } : BState).trades =
            (reset defaultConfig).trades ++ [t] ∧ t.shares = p.shares)) ∧
    ((reset defaultConfig).current_position = none →
      ({ reset defaultConfig with
        current_position := some ⟨0, 100, 50, 5000⟩, capital := 45000,
        time_delta := 1 + 1/100 } : BState).trades =
          (reset defaultConfig).trades) :=
  daily_signal_single_transition defaultConfig .Buy [(0, 100)]
    (reset defaultConfig) _
    (by norm_num [process_day, process_bars, process_bar, execute_buy, pyInt,
      reset, defaultConfig, Except.map, bind, Except.bind, pure, Except.pure])
